import Mathlib

/-!
Verification of the utility functions in
`ComfyUI-to-Python-Extension/.ipynb_checkpoints/svd_workflow_api-checkpoint.py`:
the positional/keyed result accessor `get_value_at_index`, the upward
directory search `find_path`, and `add_comfyui_directory_to_sys_path`.

Python values that a pipeline step may return are modelled by `Val`:
an opaque payload (numbers, tensors, ...), an ordered sequence (a Python
list), or a keyed mapping (a Python dict whose keys are integers or
strings, modelled as an association list with distinct-lookup-first
semantics). Python subscription `obj[k]` is modelled by `getItem`,
returning `Except PyError Val` where `PyError` distinguishes the
exception classes relevant to the source (`KeyError`, `IndexError`,
`TypeError`); an `Except.error` value models an exception propagating
to the caller.
-/

/-- Keys of a Python mapping as used by the source: integers or strings. -/
inductive Key where
  | i : Int → Key
  | s : String → Key
deriving DecidableEq

/-- Model of a Python value returned by a pipeline step: an opaque
payload, an ordered sequence, or a keyed mapping. -/
inductive Val where
  | atom : Int → Val
  | seq : List Val → Val
  | map : List (Key × Val) → Val

/-- Exception classes raised by Python subscription in the source. -/
inductive PyError where
  | keyError
  | indexError
  | typeError
deriving DecidableEq

/-- Lookup in a Python dict modelled as an association list: the value of
the first pair whose key equals `k`, if any. -/
def lookupKey (kvs : List (Key × Val)) (k : Key) : Option Val :=
  match kvs with
  | [] => none
  | (k₀, v) :: rest => if k₀ = k then some v else lookupKey rest k

/-- Python list subscription `xs[i]` for an integer index: a negative
index counts from the end (`i + len(xs)`); out of range raises
`IndexError`. -/
def listGet (xs : List Val) (i : Int) : Except PyError Val :=
  let j := if i < 0 then i + (xs.length : Int) else i
  if 0 ≤ j then
    match xs[j.toNat]? with
    | some v => Except.ok v
    | none => Except.error PyError.indexError
  else Except.error PyError.indexError

/-- Python subscription `obj[k]`: integer indexing on a sequence,
key lookup on a mapping (raising `KeyError` when the key is absent),
and `TypeError` otherwise. -/
def getItem (obj : Val) (k : Key) : Except PyError Val :=
  match obj, k with
  | Val.seq xs, Key.i n => listGet xs n
  | Val.seq _, Key.s _ => Except.error PyError.typeError
  | Val.map kvs, k =>
    match lookupKey kvs k with
    | some v => Except.ok v
    | none => Except.error PyError.keyError
  | Val.atom _, _ => Except.error PyError.typeError

/-- Embedding of `get_value_at_index(obj, index)`: evaluate `obj[index]`;
if and only if that raises `KeyError`, evaluate `obj["result"][index]`
instead (whose own exceptions propagate uncaught); every other exception
of the first attempt propagates uncaught. -/
def get_value_at_index (obj : Val) (index : Int) : Except PyError Val :=
  match getItem obj (Key.i index) with
  | Except.error PyError.keyError =>
    match getItem obj (Key.s "result") with
    | Except.ok r => getItem r (Key.i index)
    | Except.error e => Except.error e
  | r => r

example : get_value_at_index (Val.seq [Val.atom 10, Val.atom 20, Val.atom 30]) 1
    = Except.ok (Val.atom 20) := rfl

example : get_value_at_index (Val.map [(Key.s "result",
      Val.seq [Val.atom 10, Val.atom 20, Val.atom 30])]) 1
    = Except.ok (Val.atom 20) := rfl

example : get_value_at_index (Val.seq [Val.atom 10, Val.atom 20, Val.atom 30]) 5
    = Except.error PyError.indexError := rfl

example : get_value_at_index (Val.map [(Key.s "other", Val.atom 7)]) 0
    = Except.error PyError.keyError := rfl

example : get_value_at_index (Val.map [(Key.i 0, Val.atom 1),
      (Key.s "result", Val.seq [Val.atom 99])]) 0
    = Except.ok (Val.atom 1) := rfl

/-!
The filesystem side. An absolute POSIX path is modelled as its list of
components from the root (the root itself is `[]`), so that
`os.path.dirname` is `List.dropLast` (with `dirname` of the root being
the root again, the fixed point the source tests for) and
`os.path.join path name` is `path ++ [name]`. A directory tree is
modelled by its listing function `fs : List String → List String`,
giving for every path the names of its immediate children as
`os.listdir` does.
-/

/-- Embedding of `find_path(name, path)`: if `name` is among the entries
listed at `path`, return the joined path; otherwise take the parent
directory, return `none` if it equals `path` (the root was reached), and
recurse on the parent otherwise. -/
def find_path (fs : List String → List String) (name : String)
    (path : List String) : Option (List String) :=
  if name ∈ fs path then some (path ++ [name])
  else if h : path.dropLast = path then none
  else find_path fs name path.dropLast
termination_by path.length
decreasing_by
  have hne : path ≠ [] := by
    intro hnil
    rw [hnil] at h
    exact h rfl
  have hpos : 0 < path.length := List.length_pos.mpr hne
  rw [List.length_dropLast]
  omega

/-- Instrumented variant of `find_path` that additionally counts the
number of parent-traversal steps (recursive calls) performed. -/
def find_path_count (fs : List String → List String) (name : String)
    (path : List String) : Option (List String) × Nat :=
  if name ∈ fs path then (some (path ++ [name]), 0)
  else if h : path.dropLast = path then (none, 0)
  else
    let r := find_path_count fs name path.dropLast
    (r.1, r.2 + 1)
termination_by path.length
decreasing_by
  have hne : path ≠ [] := by
    intro hnil
    rw [hnil] at h
    exact h rfl
  have hpos : 0 < path.length := List.length_pos.mpr hne
  rw [List.length_dropLast]
  omega

/-- Iterated parent directory: `parentIter d P` is the ancestor of `P`
reached after `d` applications of `os.path.dirname` (`List.dropLast`). -/
def parentIter : Nat → List String → List String
  | 0, p => p
  | d + 1, p => parentIter d p.dropLast

/-- Embedding of `add_comfyui_directory_to_sys_path()`: run
`find_path "ComfyUI"` from the working directory `cwd`; if it returns a
path and that path is a directory, append it to `sysPath`; otherwise
leave `sysPath` unchanged. -/
def add_comfyui_directory_to_sys_path (fs : List String → List String)
    (isdir : List String → Bool) (cwd : List String)
    (sysPath : List (List String)) : List (List String) :=
  match find_path fs "ComfyUI" cwd with
  | some p => if isdir p then sysPath ++ [p] else sysPath
  | none => sysPath

/-- Example directory tree realising the scenario of the spec: the tree
rooted at `/` contains `/a`, `/a/ComfyUI`, `/a/b` and `/a/b/c`. -/
def exFS (p : List String) : List String :=
  match p with
  | [] => ["a"]
  | ["a"] => ["ComfyUI", "b"]
  | ["a", "b"] => ["c"]
  | _ => []

example : find_path exFS "ComfyUI" ["a", "b", "c"] = some ["a", "ComfyUI"] := by
  simp [find_path, exFS]

example : find_path_count exFS "ComfyUI" ["a", "b", "c"]
    = (some ["a", "ComfyUI"], 2) := by
  simp [find_path_count, exFS]

example : find_path exFS "nope" ["a", "b", "c"] = none := by
  simp [find_path, exFS]

/-- Second example tree, with the target present at two ancestor levels:
the root contains `/ComfyUI` and `/a`, and `/a` contains both `ComfyUI`
and `b`. -/
def exFS2 (p : List String) : List String :=
  match p with
  | [] => ["ComfyUI", "a"]
  | ["a"] => ["ComfyUI", "b"]
  | _ => []

theorem parentIter_nil (d : Nat) : parentIter d [] = [] := by
  induction d with
  | zero => rfl
  | succ d ih => exact ih

theorem parentIter_single (x : String) (d : Nat) :
    parentIter d [x] = [x] ∨ parentIter d [x] = [] := by
  cases d with
  | zero => exact Or.inl rfl
  | succ d => exact Or.inr (parentIter_nil d)

theorem dropLast_ne_self (P : List String) (h : P ≠ []) : P.dropLast ≠ P := by
  intro he
  have hlen := congrArg List.length he
  rw [List.length_dropLast] at hlen
  have hpos : 0 < P.length := List.length_pos.mpr h
  omega

theorem find_path_count_finds (fs : List String → List String) (name : String) :
    ∀ (d : Nat) (P : List String), name ∈ fs (parentIter d P) →
      ∃ e, e ≤ d ∧ name ∈ fs (parentIter e P) ∧
        find_path_count fs name P = (some (parentIter e P ++ [name]), e) := by
  intro d
  induction d with
  | zero =>
    intro P h
    have h0 : name ∈ fs P := h
    refine ⟨0, le_refl 0, h, ?_⟩
    show find_path_count fs name P = (some (P ++ [name]), 0)
    unfold find_path_count
    rw [if_pos h0]
  | succ d ih =>
    intro P h
    by_cases hP : name ∈ fs P
    · refine ⟨0, Nat.zero_le _, hP, ?_⟩
      show find_path_count fs name P = (some (P ++ [name]), 0)
      unfold find_path_count
      rw [if_pos hP]
    · have hne : P ≠ [] := by
        intro hnil
        subst hnil
        rw [parentIter_nil] at h
        exact hP h
      obtain ⟨e, he, hmem, heq⟩ := ih P.dropLast h
      refine ⟨e + 1, Nat.succ_le_succ he, hmem, ?_⟩
      show find_path_count fs name P = (some (parentIter e P.dropLast ++ [name]), e + 1)
      unfold find_path_count
      rw [if_neg hP, dif_neg (dropLast_ne_self P hne)]
      simp only [heq]

theorem find_path_eq_none_aux (fs : List String → List String) (name : String) :
    ∀ (n : Nat) (P : List String), P.length ≤ n →
      (∀ d, name ∉ fs (parentIter d P)) → find_path fs name P = none := by
  intro n
  induction n with
  | zero =>
    intro P hP h
    have hnil : P = [] := List.length_eq_zero.mp (Nat.le_zero.mp hP)
    subst hnil
    have h0 : name ∉ fs ([] : List String) := h 0
    have hd0 : ([] : List String).dropLast = [] := rfl
    unfold find_path
    rw [if_neg h0, dif_pos hd0]
  | succ n ih =>
    intro P hP h
    have h0 : name ∉ fs P := h 0
    unfold find_path
    rw [if_neg h0]
    by_cases hd : P.dropLast = P
    · rw [dif_pos hd]
    · rw [dif_neg hd]
      apply ih P.dropLast
      · have hne : P ≠ [] := by
          intro hnil
          subst hnil
          exact hd rfl
        have hpos : 0 < P.length := List.length_pos.mpr hne
        rw [List.length_dropLast]
        omega
      · intro d
        exact h (d + 1)

theorem find_path_count_fst_aux (fs : List String → List String) (name : String) :
    ∀ (n : Nat) (P : List String), P.length ≤ n →
      (find_path_count fs name P).1 = find_path fs name P := by
  intro n
  induction n with
  | zero =>
    intro P hP
    have hnil : P = [] := List.length_eq_zero.mp (Nat.le_zero.mp hP)
    subst hnil
    have hd0 : ([] : List String).dropLast = [] := rfl
    unfold find_path_count find_path
    by_cases hm : name ∈ fs ([] : List String)
    · rw [if_pos hm, if_pos hm]
    · rw [if_neg hm, if_neg hm, dif_pos hd0, dif_pos hd0]
  | succ n ih =>
    intro P hP
    unfold find_path_count find_path
    by_cases hm : name ∈ fs P
    · rw [if_pos hm, if_pos hm]
    · rw [if_neg hm, if_neg hm]
      by_cases hd : P.dropLast = P
      · rw [dif_pos hd, dif_pos hd]
      · rw [dif_neg hd, dif_neg hd]
        have hne : P ≠ [] := by
          intro hnil
          subst hnil
          exact hd rfl
        have hpos : 0 < P.length := List.length_pos.mpr hne
        have hlen : P.dropLast.length ≤ n := by
          rw [List.length_dropLast]
          omega
        exact ih P.dropLast hlen

theorem find_path_count_snd_le_aux (fs : List String → List String) (name : String) :
    ∀ (n : Nat) (P : List String), P.length ≤ n →
      (find_path_count fs name P).2 ≤ P.length := by
  intro n
  induction n with
  | zero =>
    intro P hP
    have hnil : P = [] := List.length_eq_zero.mp (Nat.le_zero.mp hP)
    subst hnil
    have hd0 : ([] : List String).dropLast = [] := rfl
    unfold find_path_count
    by_cases hm : name ∈ fs ([] : List String)
    · rw [if_pos hm]
      exact Nat.le_refl 0
    · rw [if_neg hm, dif_pos hd0]
      exact Nat.le_refl 0
  | succ n ih =>
    intro P hP
    unfold find_path_count
    by_cases hm : name ∈ fs P
    · rw [if_pos hm]
      exact Nat.zero_le _
    · rw [if_neg hm]
      by_cases hd : P.dropLast = P
      · rw [dif_pos hd]
        exact Nat.zero_le _
      · rw [dif_neg hd]
        have hne : P ≠ [] := by
          intro hnil
          subst hnil
          exact hd rfl
        have hpos : 0 < P.length := List.length_pos.mpr hne
        have hlen : P.dropLast.length ≤ n := by
          rw [List.length_dropLast]
          omega
        have hrec := ih P.dropLast hlen
        rw [List.length_dropLast] at hrec
        show (find_path_count fs name P.dropLast).2 + 1 ≤ P.length
        omega

/-- C2: if the target name is an immediate child of the ancestor of `P`
at height `d` (reached by `d` parent hops), then `find_path` returns the
joined path of the nearest matching ancestor, which lies at some height
`e ≤ d`, after exactly `e ≤ d` parent-traversal steps; and if the name
is an immediate child of no ancestor of `P` up to the root, `find_path`
returns `none`. -/
theorem find_path_upward_search (fs : List String → List String)
    (name : String) (P : List String) :
    (∀ d, name ∈ fs (parentIter d P) →
      ∃ e, e ≤ d ∧ name ∈ fs (parentIter e P) ∧
        find_path_count fs name P = (some (parentIter e P ++ [name]), e) ∧
        find_path fs name P = some (parentIter e P ++ [name])) ∧
    ((∀ d, name ∉ fs (parentIter d P)) → find_path fs name P = none) := by
  constructor
  · intro d h
    obtain ⟨e, he, hmem, heq⟩ := find_path_count_finds fs name d P h
    refine ⟨e, he, hmem, heq, ?_⟩
    rw [← find_path_count_fst_aux fs name P.length P (le_refl _), heq]
  · intro h
    exact find_path_eq_none_aux fs name P.length P (le_refl _) h

/-- Witness for C2: in the tree `/a/b/c` with `ComfyUI` at `/a`, the
search from `/a/b/c` succeeds within 2 hops; and a search for an absent
name returns `none`. -/
theorem find_path_upward_search_witness :
    (∃ e, e ≤ 2 ∧ "ComfyUI" ∈ exFS (parentIter e ["a", "b", "c"]) ∧
      find_path_count exFS "ComfyUI" ["a", "b", "c"]
        = (some (parentIter e ["a", "b", "c"] ++ ["ComfyUI"]), e) ∧
      find_path exFS "ComfyUI" ["a", "b", "c"]
        = some (parentIter e ["a", "b", "c"] ++ ["ComfyUI"])) ∧
    find_path exFS "missing" ["x"] = none :=
  ⟨(find_path_upward_search exFS "ComfyUI" ["a", "b", "c"]).1 2 (by decide),
   (find_path_upward_search exFS "missing" ["x"]).2 (fun d => by
     rcases parentIter_single "x" d with h | h <;> rw [h] <;> decide)⟩

/-- C3: `find_path` terminates on every input; the instrumented variant
computes the same result, and its number of parent-traversal steps is
bounded by the depth of the starting path. -/
theorem find_path_terminates (fs : List String → List String)
    (name : String) (P : List String) :
    (find_path_count fs name P).1 = find_path fs name P ∧
    (find_path_count fs name P).2 ≤ P.length :=
  ⟨find_path_count_fst_aux fs name P.length P (le_refl _),
   find_path_count_snd_le_aux fs name P.length P (le_refl _)⟩

/-- C7: when the target name is an immediate child of no ancestor of the
starting path, `find_path` evaluates to a value (no exception exists in
the embedding) and that value is `none`. -/
theorem find_path_missing_returns_none (fs : List String → List String)
    (name : String) (P : List String)
    (h : ∀ d, name ∉ fs (parentIter d P)) :
    find_path fs name P = none :=
  find_path_eq_none_aux fs name P.length P (le_refl _) h

/-- Witness for C7: searching for an absent name from `/x` returns
`none`. -/
theorem find_path_missing_returns_none_witness :
    find_path exFS "nope" ["x"] = none :=
  find_path_missing_returns_none exFS "nope" ["x"] (fun d => by
    rcases parentIter_single "x" d with h | h <;> rw [h] <;> decide)

/-- C8: if the target name is an immediate child of the current
directory, `find_path` returns the joined path at once, with zero
parent-traversal steps, regardless of any matches at higher ancestors. -/
theorem find_path_nearest_match (fs : List String → List String)
    (name : String) (P : List String) (h : name ∈ fs P) :
    find_path fs name P = some (P ++ [name]) ∧
    find_path_count fs name P = (some (P ++ [name]), 0) := by
  constructor
  · unfold find_path
    rw [if_pos h]
  · unfold find_path_count
    rw [if_pos h]

/-- Witness for C8: in a tree where `ComfyUI` exists both at `/a` and at
the root, the search from `/a` returns `/a/ComfyUI` with zero hops. -/
theorem find_path_nearest_match_witness :
    find_path exFS2 "ComfyUI" ["a"] = some ["a", "ComfyUI"] ∧
    find_path_count exFS2 "ComfyUI" ["a"] = (some ["a", "ComfyUI"], 0) :=
  find_path_nearest_match exFS2 "ComfyUI" ["a"] (by decide)

/-- C10: `add_comfyui_directory_to_sys_path` appends exactly one entry
at the end of the module search path when `find_path "ComfyUI"` returns
a path that is a directory, and leaves the search path completely
unchanged in every other case. -/
theorem add_comfyui_sys_path_frame (fs : List String → List String)
    (isdir : List String → Bool) (cwd : List String)
    (sysPath : List (List String)) :
    (∃ p, find_path fs "ComfyUI" cwd = some p ∧ isdir p = true ∧
      add_comfyui_directory_to_sys_path fs isdir cwd sysPath = sysPath ++ [p]) ∨
    (add_comfyui_directory_to_sys_path fs isdir cwd sysPath = sysPath ∧
      ∀ p, find_path fs "ComfyUI" cwd = some p → isdir p = false) := by
  rcases hf : find_path fs "ComfyUI" cwd with _ | p
  · right
    constructor
    · simp [add_comfyui_directory_to_sys_path, hf]
    · intro q hq
      simp at hq
  · by_cases hi : isdir p = true
    · left
      exact ⟨p, rfl, hi, by simp [add_comfyui_directory_to_sys_path, hf, hi]⟩
    · right
      constructor
      · simp [add_comfyui_directory_to_sys_path, hf, hi]
      · intro q hq
        injection hq with hq
        subst hq
        simpa using hi

/-- C6: for every StepResult that is a plain ordered sequence `S` and
every valid index `i < len(S)`, `get_value_at_index` returns `S[i]`. -/
theorem get_value_at_index_seq_inbounds (S : List Val) (i : Nat)
    (h : i < S.length) :
    get_value_at_index (Val.seq S) (i : Int) = Except.ok (S.get ⟨i, h⟩) := by
  have h0 : ¬((i : Int) < 0) := by
    simp
  unfold get_value_at_index getItem listGet
  simp [h0, List.getElem?_eq_getElem h]

/-- Witness for C6 at the concrete sequence `[10, 20, 30]` and index 1. -/
theorem get_value_at_index_seq_inbounds_witness :
    1 < 3 ∧ get_value_at_index (Val.seq [Val.atom 10, Val.atom 20, Val.atom 30])
      ((1 : Nat) : Int) = Except.ok (Val.atom 20) :=
  ⟨by decide,
   get_value_at_index_seq_inbounds [Val.atom 10, Val.atom 20, Val.atom 30] 1
     (by decide)⟩

/-- C5: for every StepResult that is a true ordered sequence `S` and
every position `i ≥ len(S)`, `get_value_at_index` raises `IndexError`,
which propagates to the caller (the fallback catches only `KeyError`). -/
theorem get_value_at_index_seq_out_of_bounds (S : List Val) (i : Nat)
    (h : S.length ≤ i) :
    get_value_at_index (Val.seq S) (i : Int) = Except.error PyError.indexError := by
  have h0 : ¬((i : Int) < 0) := by
    simp
  unfold get_value_at_index getItem listGet
  simp [h0, List.getElem?_eq_none h]

/-- Witness for C5 at the concrete sequence `[10, 20, 30]` and position 5. -/
theorem get_value_at_index_seq_out_of_bounds_witness :
    3 ≤ 5 ∧ get_value_at_index (Val.seq [Val.atom 10, Val.atom 20, Val.atom 30])
      ((5 : Nat) : Int) = Except.error PyError.indexError :=
  ⟨by decide,
   get_value_at_index_seq_out_of_bounds [Val.atom 10, Val.atom 20, Val.atom 30] 5
     (by decide)⟩

/-- C1: for every StepResult that is a mapping lacking the integer
position `i` as a key but containing the key "result" mapped to a
sequence `S` with `i < len(S)`, `get_value_at_index` returns `S[i]`. -/
theorem get_value_at_index_result_fallback (kvs : List (Key × Val))
    (S : List Val) (i : Nat)
    (h1 : lookupKey kvs (Key.i (i : Int)) = none)
    (h2 : lookupKey kvs (Key.s "result") = some (Val.seq S))
    (h3 : i < S.length) :
    get_value_at_index (Val.map kvs) (i : Int) = Except.ok (S.get ⟨i, h3⟩) := by
  have h0 : ¬((i : Int) < 0) := by
    simp
  unfold get_value_at_index getItem listGet
  simp [h1, h2, h0, List.getElem?_eq_getElem h3]

/-- Witness for C1 at the concrete mapping
`\x7b"result": [10, 20, 30]\x7d` and position 1. -/
theorem get_value_at_index_result_fallback_witness :
    lookupKey [(Key.s "result", Val.seq [Val.atom 10, Val.atom 20, Val.atom 30])]
        (Key.i ((1 : Nat) : Int)) = none ∧
    lookupKey [(Key.s "result", Val.seq [Val.atom 10, Val.atom 20, Val.atom 30])]
        (Key.s "result") = some (Val.seq [Val.atom 10, Val.atom 20, Val.atom 30]) ∧
    1 < 3 ∧
    get_value_at_index
        (Val.map [(Key.s "result", Val.seq [Val.atom 10, Val.atom 20, Val.atom 30])])
        ((1 : Nat) : Int) = Except.ok (Val.atom 20) :=
  ⟨rfl, rfl, by decide,
   get_value_at_index_result_fallback
     [(Key.s "result", Val.seq [Val.atom 10, Val.atom 20, Val.atom 30])]
     [Val.atom 10, Val.atom 20, Val.atom 30] 1 rfl rfl (by decide)⟩

/-- C4: for every StepResult that is a mapping lacking both the integer
position `i` and the key "result", `get_value_at_index` raises
`KeyError` (from the fallback lookup), which propagates uncaught. -/
theorem get_value_at_index_map_missing_both (kvs : List (Key × Val)) (i : Int)
    (h1 : lookupKey kvs (Key.i i) = none)
    (h2 : lookupKey kvs (Key.s "result") = none) :
    get_value_at_index (Val.map kvs) i = Except.error PyError.keyError := by
  unfold get_value_at_index getItem
  simp [h1, h2]

/-- Witness for C4 at the concrete mapping `\x7b"other": 7\x7d` and
position 0. -/
theorem get_value_at_index_map_missing_both_witness :
    lookupKey [(Key.s "other", Val.atom 7)] (Key.i 0) = none ∧
    lookupKey [(Key.s "other", Val.atom 7)] (Key.s "result") = none ∧
    get_value_at_index (Val.map [(Key.s "other", Val.atom 7)]) 0
      = Except.error PyError.keyError :=
  ⟨rfl, rfl,
   get_value_at_index_map_missing_both [(Key.s "other", Val.atom 7)] 0 rfl rfl⟩

/-- C9: for every StepResult that is a mapping containing the queried
integer position `i` directly as a key, `get_value_at_index` returns the
value mapped to that key; the "result" fallback is never consulted, as
the statement holds for every mapping, including those that also bind
"result" to a different value at that position. -/
theorem get_value_at_index_map_direct_key (kvs : List (Key × Val)) (i : Int)
    (v : Val) (h : lookupKey kvs (Key.i i) = some v) :
    get_value_at_index (Val.map kvs) i = Except.ok v := by
  unfold get_value_at_index getItem
  simp [h]

/-- Witness for C9 at a concrete mapping binding both the key 0 and the
key "result", where "result" holds a different value at position 0. -/
theorem get_value_at_index_map_direct_key_witness :
    lookupKey [(Key.i 0, Val.atom 1), (Key.s "result", Val.seq [Val.atom 99])]
        (Key.i 0) = some (Val.atom 1) ∧
    get_value_at_index
        (Val.map [(Key.i 0, Val.atom 1), (Key.s "result", Val.seq [Val.atom 99])]) 0
      = Except.ok (Val.atom 1) :=
  ⟨rfl,
   get_value_at_index_map_direct_key
     [(Key.i 0, Val.atom 1), (Key.s "result", Val.seq [Val.atom 99])] 0
     (Val.atom 1) rfl⟩
